import Mathlib

/-!
Verification of the dokdash repository: a shallow embedding of its
schema/normalization layer (`src/lib/dokploy`), its flattening/projection
function and pin handling (`src/App.tsx`), and its aggregation endpoint
(`src/index.tsx`), together with theorems settling the frozen claims.

Modelling conventions:
- JavaScript `undefined`/`null` optional fields become `Option` values
  (the spec directs that absent and null be treated as equivalent).
- JSON numbers are modelled as integers (the schemas use numbers only for
  ports); JSON values are the inductive `Json` below.
- JavaScript string comparison (`localeCompare`) is modelled as the
  codepoint-lexicographic total order `strLt`/`strLe` below.
- Fallible operations return `Option`; a thrown-and-caught exception is the
  `none` branch of the corresponding `Option`.
-/

/-- JSON values, as delivered by the upstream API. Objects are association
lists of fields in source order. -/
inductive Json where
  | null
  | bool (b : Bool)
  | num (n : Int)
  | str (s : String)
  | arr (elems : List Json)
  | obj (fields : List (String × Json))

/-- Lookup of an object field by key (first binding wins, as in a parsed
JSON object with distinct keys). -/
def getField : List (String × Json) → String → Option Json
  | [], _ => none
  | (k, v) :: rest, key => if k = key then some v else getField rest key

/-- A validated Domain record (file `src/lib/dokploy`, `domainSchema`):
required host, optional https flag, port, path. The `domainId` and
`serviceName` fields play no role in any operation and are omitted from the
record; unknown extra fields are likewise irrelevant to the pure helpers. -/
structure Domain where
  host : String
  https : Option Bool := none
  port : Option Int := none
  path : Option String := none
deriving DecidableEq, Repr

/-- A validated Resource record (`resourceSchema`): the three id kinds, the
two name fields and the optional domains list. Elements of `domains` are
`Option Domain` because the flattening code guards each element against
null/undefined before resolving it. -/
structure Resource where
  composeId : Option String := none
  applicationId : Option String := none
  databaseId : Option String := none
  name : Option String := none
  appName : Option String := none
  domains : Option (List (Option Domain)) := none
deriving DecidableEq, Repr

/-- A validated Environment record (`environmentSchema`): name plus seven
optional resource-category lists. -/
structure Environment where
  name : Option String := none
  applications : Option (List Resource) := none
  compose : Option (List Resource) := none
  postgres : Option (List Resource) := none
  mysql : Option (List Resource) := none
  mariadb : Option (List Resource) := none
  mongo : Option (List Resource) := none
  redis : Option (List Resource) := none
deriving DecidableEq, Repr

/-- A validated Project record (`projectSchema`). -/
structure Project where
  projectId : Option String := none
  name : Option String := none
  environments : Option (List Environment) := none
deriving DecidableEq, Repr

/-- The function `resolveDomainUrl` of `src/lib/dokploy`:

    if (!domain?.host) return null;
    const protocol = domain.https ? "https" : "http";
    const port = domain.port ? (":" + domain.port) : "";
    const path = domain.path && domain.path !== "/" ? domain.path : "";
    return protocol + "://" + domain.host + port + path;

JavaScript truthiness: the https flag is truthy iff it is `true`; a port is
truthy iff present and nonzero; a path is truthy iff present and nonempty. -/
def resolveDomainUrl : Option Domain → Option String
  | none => none
  | some domain =>
    if domain.host = "" then none
    else
      let protocol := if domain.https = some true then "https" else "http"
      let port :=
        match domain.port with
        | some p => if p = 0 then "" else ":" ++ toString p
        | none => ""
      let path :=
        match domain.path with
        | some p => if p ≠ "" ∧ p ≠ "/" then p else ""
        | none => ""
      some (protocol ++ "://" ++ domain.host ++ port ++ path)

/-- The claim C1 statement of `resolveDomainUrl`, written from the words of
the specification: null when the domain is absent or its host is empty;
otherwise the scheme is https iff the https flag is truthy, the port
segment appears iff the port is present and non-zero/non-null, and the path
segment is the path string iff present and not the literal slash. -/
def resolveDomainUrlSpec : Option Domain → Option String
  | none => none
  | some domain =>
    if domain.host = "" then none
    else
      some ((if domain.https = some true then "https" else "http")
        ++ "://" ++ domain.host
        ++ (match domain.port with
            | some p => if p ≠ 0 then ":" ++ toString p else ""
            | none => "")
        ++ (match domain.path with
            | some p => if p ≠ "/" then p else ""
            | none => ""))

/-- A flattened display entry (type `ResourceEntry` of `src/App.tsx`). -/
structure ResourceEntry where
  id : String
  projectKey : String
  title : String
  projectName : String
  environmentName : Option String
  sectionLabel : String
  urls : List String
deriving DecidableEq, Repr

/-- One element of the `resourceSections` table of `src/lib/dokploy`:
a resource-category key and its human label. -/
structure ResourceSection where
  key : String
  label : String
deriving DecidableEq, Repr

/-- The `resourceSections` table of `src/lib/dokploy`, in source order. -/
def resourceSections : List ResourceSection :=
  [⟨"applications", "Applications"⟩,
   ⟨"compose", "Compose Stacks"⟩,
   ⟨"postgres", "Postgres"⟩,
   ⟨"mysql", "MySQL"⟩,
   ⟨"mariadb", "MariaDB"⟩,
   ⟨"mongo", "MongoDB"⟩,
   ⟨"redis", "Redis"⟩]

/-- Dynamic field access `environment[section.key]` for the seven category
keys of `resourceSections`. -/
def envSection (environment : Environment) (key : String) : Option (List Resource) :=
  if key = "applications" then environment.applications
  else if key = "compose" then environment.compose
  else if key = "postgres" then environment.postgres
  else if key = "mysql" then environment.mysql
  else if key = "mariadb" then environment.mariadb
  else if key = "mongo" then environment.mongo
  else if key = "redis" then environment.redis
  else none

/-- Digit character of JavaScript `Number.prototype.toString(36)`:
0-9 then lowercase a-z. -/
def base36Digit (n : Nat) : Char :=
  if n < 10 then Char.ofNat (48 + n) else Char.ofNat (87 + n)

/-- JavaScript `index.toString(36)` for natural numbers. -/
def natToBase36 (n : Nat) : String :=
  if h : n < 36 then String.mk [base36Digit n]
  else natToBase36 (n / 36) ++ String.mk [base36Digit (n % 36)]
termination_by n
decreasing_by exact Nat.div_lt_self (by omega) (by omega)

/-- The `urls` computation of `flattenProjects` (`src/App.tsx` lines 77-85):
map each domain through `resolveDomainUrl`, guarding null elements, then
keep only nonempty strings. -/
def resourceUrls (resource : Resource) : List String :=
  ((resource.domains.getD []).map (fun domain =>
      match domain with
      | some d => resolveDomainUrl (some d)
      | none => none)).filterMap (fun value =>
    match value with
    | some s => if 0 < s.length then some s else none
    | none => none)

/-- One emitted entry of `flattenProjects` (`src/App.tsx` lines 87-103), for
the resource at position `resIndex` of the category `sec` inside the
project at position `pIndex`. -/
def mkEntry (pIndex : Nat) (project : Project) (environmentName : Option String)
    (sec : ResourceSection) (resIndex : Nat) (resource : Resource) : ResourceEntry :=
  let projectName := project.name.getD "Unnamed project"
  { id := resource.composeId.getD (resource.applicationId.getD (resource.databaseId.getD
      (project.projectId.getD projectName ++ "-" ++ sec.key ++ "-" ++ toString resIndex)))
    projectKey := project.projectId.getD (project.name.getD ("project-" ++ natToBase36 pIndex))
    title := resource.name.getD (resource.appName.getD "Untitled resource")
    projectName := projectName
    environmentName := environmentName
    sectionLabel := sec.label
    urls := resourceUrls resource }

/-- All entries emitted for one project (the body of the outer `forEach` of
`flattenProjects`), in emission order. -/
def projectEntries (pIndex : Nat) (project : Project) : List ResourceEntry :=
  (project.environments.getD []).flatMap (fun environment =>
    resourceSections.flatMap (fun sec =>
      match envSection environment sec.key with
      | none => []
      | some resources =>
          resources.enum.map (fun pr => mkEntry pIndex project environment.name sec pr.1 pr.2)))

/-- The emission phase of `flattenProjects`, before sorting. -/
def flattenUnsorted (projects : List Project) : List ResourceEntry :=
  projects.enum.flatMap (fun pr => projectEntries pr.1 pr.2)

/-- Codepoint-lexicographic strict order on character lists; the model of a
negative JavaScript `localeCompare` result. -/
def charListLt : List Char → List Char → Bool
  | _, [] => false
  | [], _ :: _ => true
  | a :: as, b :: bs =>
    a.toNat < b.toNat || (a.toNat = b.toNat && charListLt as bs)

/-- Strict string order modelling `a.localeCompare(b) < 0`. -/
def strLt (a b : String) : Bool := charListLt a.data b.data

/-- Non-strict string order modelling `a.localeCompare(b) <= 0`. -/
def strLe (a b : String) : Bool := !(strLt b a)

/-- The comparator of `flattenProjects` (`src/App.tsx` lines 109-114) as a
boolean order: comparator result at most zero. -/
def entryLE (a b : ResourceEntry) : Bool :=
  if a.projectName = b.projectName then strLe a.title b.title
  else strLt a.projectName b.projectName

/-- The function `flattenProjects` of `src/App.tsx`: emit entries in input
order, then sort stably by the project-name/title comparator. -/
def flattenProjects (projects : List Project) : List ResourceEntry :=
  (flattenUnsorted projects).mergeSort entryLE

/-- Resource count of one environment, summed over the seven category lists
in `resourceSections` order. -/
def envResourceCount (environment : Environment) : Nat :=
  (resourceSections.map (fun sec =>
    ((envSection environment sec.key).getD []).length)).sum

/-- Resource count of one project. -/
def projectResourceCount (project : Project) : Nat :=
  ((project.environments.getD []).map envResourceCount).sum

/-- The `urls` computation as the claim words it: the domains sequence
mapped through `resolveDomainUrl`, with nulls and empty strings discarded
and source order preserved. -/
def resourceUrlsSpec (resource : Resource) : List String :=
  (resource.domains.getD []).filterMap (fun domain =>
    (resolveDomainUrl domain).bind (fun s => if s = "" then none else some s))

/-- The id computation as the claim words it: the first present of
composeId, applicationId, databaseId; otherwise the composite fallback of
project id or name, category key and position. -/
def entryIdSpec (project : Project) (sec : ResourceSection) (resIndex : Nat)
    (resource : Resource) : String :=
  match resource.composeId with
  | some i => i
  | none =>
    match resource.applicationId with
    | some i => i
    | none =>
      match resource.databaseId with
      | some i => i
      | none =>
        (match project.projectId with
         | some i => i
         | none => project.name.getD "Unnamed project")
          ++ "-" ++ sec.key ++ "-" ++ toString resIndex

/-- The `togglePin` state update of `src/App.tsx` lines 151-158:

    prev.includes(entryId) ? prev.filter(key => key !== entryId)
                           : [...prev, entryId]
-/
def togglePin (entryId : String) (prev : List String) : List String :=
  if prev.contains entryId then prev.filter (fun key => key != entryId)
  else prev ++ [entryId]

/-- Pin-set initialization (`src/App.tsx` lines 124-137). The stored value
and the JSON parser are passed in: `stored = none` models a missing key,
`parse s = none` models `JSON.parse` throwing (the `catch` branch). A
stored value that is empty, unparsable, or parses to a non-array yields the
empty set; an array keeps only its string elements. -/
def initPins (stored : Option String) (parse : String → Option Json) : List String :=
  match stored with
  | none => []
  | some s =>
    if s = "" then []
    else
      match parse s with
      | none => []
      | some (.arr elems) =>
        elems.filterMap (fun item =>
          match item with
          | .str v => some v
          | _ => none)
      | some _ => []

/-- JavaScript `Boolean` view of a JSON value being a string. -/
def isStr : Json → Bool
  | .str _ => true
  | _ => false

/-- Test for a JSON boolean. -/
def isBool : Json → Bool
  | .bool _ => true
  | _ => false

/-- Test for a JSON number. -/
def isNum : Json → Bool
  | .num _ => true
  | _ => false

/-- Validation of an optional field (zod `.optional()`): absent is fine; a
present value must satisfy the field predicate (an explicit null fails). -/
def optField (fields : List (String × Json)) (key : String) (p : Json → Bool) : Bool :=
  match getField fields key with
  | none => true
  | some v => p v

/-- Validation of an optional nullable field (zod `.optional().nullable()`
or `.nullable().optional()`): absent and null are fine. -/
def optNullableField (fields : List (String × Json)) (key : String) (p : Json → Bool) : Bool :=
  match getField fields key with
  | none => true
  | some .null => true
  | some v => p v

/-- Validation of a zod `z.array(sub)` value. -/
def isArrayOf (p : Json → Bool) : Json → Bool
  | .arr elems => elems.all p
  | _ => false

/-- The `domainSchema` of `src/lib/dokploy` as a predicate: required
`host` string of length at least one, the other fields optional (`port`,
`path`, `serviceName` also nullable), anything else unconstrained. -/
def validDomain : Json → Bool
  | .obj fields =>
    optField fields "domainId" isStr &&
    (match getField fields "host" with
     | some (.str s) => 1 ≤ s.length
     | _ => false) &&
    optField fields "https" isBool &&
    optNullableField fields "port" isNum &&
    optNullableField fields "path" isStr &&
    optNullableField fields "serviceName" isStr
  | _ => false

/-- Parse under `domainSchema`. The schema is `.passthrough()` and every
declared field parses to itself, so a successful zod parse returns the
input object with all its fields. -/
def parseDomain (j : Json) : Option Json :=
  if validDomain j then some j else none

/-- The `resourceSchema` of `src/lib/dokploy` as a predicate. -/
def validResource : Json → Bool
  | .obj fields =>
    optField fields "composeId" isStr &&
    optField fields "applicationId" isStr &&
    optField fields "databaseId" isStr &&
    optField fields "name" isStr &&
    optField fields "appName" isStr &&
    optField fields "composeStatus" isStr &&
    optField fields "status" isStr &&
    optNullableField fields "domains" (isArrayOf validDomain)
  | _ => false

/-- Parse under `resourceSchema` (`.passthrough()`, see `parseDomain`). -/
def parseResource (j : Json) : Option Json :=
  if validResource j then some j else none

/-- The `environmentSchema` of `src/lib/dokploy` as a predicate. -/
def validEnvironment : Json → Bool
  | .obj fields =>
    optField fields "environmentId" isStr &&
    optField fields "name" isStr &&
    optNullableField fields "description" isStr &&
    optField fields "applications" (isArrayOf validResource) &&
    optField fields "compose" (isArrayOf validResource) &&
    optField fields "postgres" (isArrayOf validResource) &&
    optField fields "mysql" (isArrayOf validResource) &&
    optField fields "mariadb" (isArrayOf validResource) &&
    optField fields "mongo" (isArrayOf validResource) &&
    optField fields "redis" (isArrayOf validResource)
  | _ => false

/-- Parse under `environmentSchema` (`.passthrough()`). -/
def parseEnvironment (j : Json) : Option Json :=
  if validEnvironment j then some j else none

/-- The `projectSchema` of `src/lib/dokploy` as a predicate. -/
def validProject : Json → Bool
  | .obj fields =>
    optField fields "projectId" isStr &&
    optField fields "name" isStr &&
    optNullableField fields "description" isStr &&
    optField fields "environments" (isArrayOf validEnvironment)
  | _ => false

/-- Parse under `projectSchema` (`.passthrough()`). -/
def parseProject (j : Json) : Option Json :=
  if validProject j then some j else none

/-- Parse under `projectListSchema = z.array(projectSchema)`. -/
def parseProjectList (j : Json) : Option Json :=
  match j with
  | .arr elems => if elems.all validProject then some (.arr elems) else none
  | _ => none

/-- Output of a strip-mode zod object (`z.object` without
`.passthrough()`): only the declared keys that are present, in schema
declaration order. -/
def stripKeys (fields : List (String × Json)) (keys : List String) : Json :=
  .obj (keys.filterMap (fun k => (getField fields k).map (fun v => (k, v))))

/-- Parse under the nested `info` object of `openApiInfoSchema`: three
optional strings, strip mode (no `.passthrough()`). -/
def parseInfoObj : Json → Option Json
  | .obj fields =>
    if optField fields "title" isStr && optField fields "version" isStr &&
        optField fields "description" isStr then
      some (stripKeys fields ["title", "version", "description"])
    else none
  | _ => none

/-- Parse under the `servers` element object of `openApiInfoSchema`:
required string `url`, strip mode. -/
def parseServerObj : Json → Option Json
  | .obj fields =>
    match getField fields "url" with
    | some (.str s) => some (.obj [("url", .str s)])
    | _ => none
  | _ => none

/-- Parse under `openApiInfoSchema`: the outer object is `.passthrough()`
(unknown fields kept), while the declared `info` and `servers` fields are
replaced by their strip-mode parses. -/
def parseOpenApiInfo : Json → Option Json
  | .obj fields =>
    (match getField fields "info" with
     | none => some none
     | some v => (parseInfoObj v).map some) |>.bind (fun infoOut : Option Json =>
      (match getField fields "servers" with
       | none => some none
       | some (.arr elems) => (elems.mapM parseServerObj).map (fun l => some (Json.arr l))
       | some _ => none) |>.map (fun serversOut : Option Json =>
        Json.obj (fields.map (fun kv : String × Json =>
          if kv.1 = "info" then (kv.1, infoOut.getD kv.2)
          else if kv.1 = "servers" then (kv.1, serversOut.getD kv.2)
          else kv))))
  | _ => none

/-- Parse under the `meta` object of `configResponseSchema`: strip mode,
optional title/version/description strings, `servers` a string array
defaulting to the empty array, required `fetchedAt` string. -/
def parseMeta : Json → Option Json
  | .obj fields =>
    if optField fields "title" isStr && optField fields "version" isStr &&
        optField fields "description" isStr then
      match getField fields "fetchedAt" with
      | some (.str t) =>
        (match getField fields "servers" with
         | none => some (Json.arr [])
         | some (.arr elems) => if elems.all isStr then some (Json.arr elems) else none
         | some _ => none) |>.map (fun serversOut : Json =>
          Json.obj ((["title", "version", "description"].filterMap
              (fun k => (getField fields k).map (fun v => (k, v))))
            ++ [("servers", serversOut), ("fetchedAt", .str t)]))
      | _ => none
    else none
  | _ => none

/-- Parse under `configResponseSchema`: a strip-mode object (note: no
`.passthrough()` in the source) with required `projects` and `meta`. -/
def parseConfigResponse : Json → Option Json
  | .obj fields =>
    (match getField fields "projects" with
     | some pj => parseProjectList pj
     | none => none) |>.bind (fun projectsOut =>
      (match getField fields "meta" with
       | some mj => parseMeta mj
       | none => none) |>.map (fun metaOut =>
        Json.obj [("projects", projectsOut), ("meta", metaOut)]))
  | _ => none

/-- Leading-whitespace removal on a character list. -/
def trimLeadingChars : List Char → List Char
  | [] => []
  | c :: rest => if c.isWhitespace then trimLeadingChars rest else c :: rest

/-- JavaScript `input.trim()`: remove leading and trailing whitespace. -/
def jsTrim (s : String) : String :=
  String.mk ((trimLeadingChars (trimLeadingChars s.data).reverse).reverse)

/-- JavaScript `s.endsWith(suffix)`. -/
def strEndsWith (s suffix : String) : Bool :=
  suffix.data.isSuffixOf s.data

/-- JavaScript `trimmed.replace(/\/$/, "")`: remove one trailing slash. -/
def stripOneTrailingSlash (s : String) : String :=
  if strEndsWith s "/" then String.mk s.data.dropLast else s

/-- Substring test on character lists. -/
def containsSub (pat : List Char) : List Char → Bool
  | [] => pat.isEmpty
  | c :: rest => pat.isPrefixOf (c :: rest) || containsSub pat rest

/-- The test `/\/api(?:\/|$)/.test(normalized)` of `sanitizeBaseUrl`: the
string contains the segment `/api/` or ends with `/api`. -/
def hasApiSegment (s : String) : Bool :=
  containsSub "/api/".data s.data || strEndsWith s "/api"

/-- The function `sanitizeBaseUrl` of `src/index.tsx`: trim, drop one
trailing slash, append `/api` unless an `/api` segment is already there;
empty or whitespace-only input yields null. -/
def sanitizeBaseUrl (input : String) : Option String :=
  let trimmed := jsTrim input
  if trimmed = "" then none
  else
    let normalized := stripOneTrailingSlash trimmed
    some (if hasApiSegment normalized then normalized else normalized ++ "/api")

/-- Outcome of one outbound `fetch`, as the handler observes it: the ok
flag, status code, status text and (already decoded) JSON body. -/
structure UpstreamResponse where
  ok : Bool
  status : Nat
  statusText : String
  body : Json

/-- Result of the `/api/config` route: a JSON payload with status 200, or
an `{error}` body with an error status. -/
inductive ApiResult where
  | ok (payload : Json)
  | err (status : Nat) (error : String)

/-- The message thrown at `src/index.tsx` lines 40-44. -/
def openApiErrorMessage (r : UpstreamResponse) : String :=
  "Unable to load Dokploy OpenAPI document (" ++ toString r.status ++ " "
    ++ r.statusText ++ ")"

/-- The message thrown at `src/index.tsx` lines 46-50. -/
def projectsErrorMessage (r : UpstreamResponse) : String :=
  "Unable to load Dokploy projects (" ++ toString r.status ++ " "
    ++ r.statusText ++ ")"

/-- Stand-in for the message of a thrown ZodError (the real message is a
rendering of the issue list; no claim depends on its text). -/
def validationErrorMessage : String := "Validation error"

/-- The `meta` candidate object built at `src/index.tsx` lines 60-66 from
the parsed OpenAPI document: title, version and description lifted from
`info` when present, server URLs, and the fresh timestamp. -/
def metaCandidate (openApiOut : Json) (now : String) : Json :=
  let infoFields :=
    match openApiOut with
    | .obj fields =>
      match getField fields "info" with
      | some (.obj f) => f
      | _ => []
    | _ => []
  let serverElems :=
    match openApiOut with
    | .obj fields =>
      match getField fields "servers" with
      | some (.arr elems) => elems
      | _ => []
    | _ => []
  .obj ((["title", "version", "description"].filterMap
      (fun k => (getField infoFields k).map (fun v => (k, v))))
    ++ [("servers", .arr (serverElems.map (fun e =>
          match e with
          | .obj ef => (getField ef "url").getD .null
          | _ => .null))),
        ("fetchedAt", .str now)])

/-- The `/api/config` handler of `src/index.tsx`, as a function of the
configured base URL, the two settled upstream responses and the current
time. The try/catch that turns any thrown error into a 500 `{error}`
response is modelled by the error branches. -/
def handleConfig (baseUrl : String) (openApiResponse projectsResponse : UpstreamResponse)
    (now : String) : ApiResult :=
  match sanitizeBaseUrl baseUrl with
  | none => .err 500 "Missing DOKPLOY_BASE_URL environment variable."
  | some _ =>
    if openApiResponse.ok = false then
      .err 500 (openApiErrorMessage openApiResponse)
    else if projectsResponse.ok = false then
      .err 500 (projectsErrorMessage projectsResponse)
    else
      match parseOpenApiInfo openApiResponse.body with
      | none => .err 500 validationErrorMessage
      | some openApiOut =>
        match parseProjectList projectsResponse.body with
        | none => .err 500 validationErrorMessage
        | some projectsOut =>
          match parseConfigResponse
              (.obj [("projects", projectsOut), ("meta", metaCandidate openApiOut now)]) with
          | none => .err 500 validationErrorMessage
          | some payload => .ok payload

/-- Concrete input for claim C3: one project, one environment, two
applications without explicit ids. -/
def twoAppsProject : Project :=
  { name := some "p",
    environments := some [
      { name := some "production",
        applications := some [{}, {}] }] }

/-- Concrete input for claim C10: one project without projectId whose two
environments each hold one application, at position zero of the same
category, with no explicit id. -/
def dupIdProject : Project :=
  { name := some "p",
    environments := some [
      { name := some "dev", applications := some [{}] },
      { name := some "prod", applications := some [{}] }] }

/-- Concrete ConfigResponse input fields carrying an unrecognized extra
top-level field. -/
def configExtraFields : List (String × Json) :=
  [("projects", .arr []),
   ("meta", .obj [("fetchedAt", .str "2024-01-01T00:00:00.000Z")]),
   ("extra", .str "kept")]

/-- The declared-keys-only output that `configResponseSchema` produces for
`configExtraFields`. -/
def configStrippedFields : List (String × Json) :=
  [("projects", .arr []),
   ("meta", .obj [("servers", .arr []), ("fetchedAt", .str "2024-01-01T00:00:00.000Z")])]

/-- Total number of resources in the nested input, counted along the same
traversal as `flattenProjects`. -/
def countResources (projects : List Project) : Nat :=
  (projects.map projectResourceCount).sum

/-- C1: for every Domain input, `resolveDomainUrl` returns null exactly on an
absent domain or an empty host, and otherwise the URL string described by
the specification (scheme from the https flag, optional port segment,
optional path segment). -/
theorem resolveDomainUrl_correct :
    ∀ domain : Option Domain, resolveDomainUrl domain = resolveDomainUrlSpec domain := by
  intro domain
  match domain with
  | none => rfl
  | some d =>
    simp only [resolveDomainUrl, resolveDomainUrlSpec]
    by_cases hhost : d.host = ""
    · simp [hhost]
    · simp only [hhost, if_false]
      have hport : (match d.port with
          | some p => if p = 0 then "" else ":" ++ toString p
          | none => "") = (match d.port with
          | some p => if p ≠ 0 then ":" ++ toString p else ""
          | none => "") := by
        match d.port with
        | none => rfl
        | some p => by_cases hp : p = 0 <;> simp [hp]
      have hpath : (match d.path with
          | some p => if p ≠ "" ∧ p ≠ "/" then p else ""
          | none => "") = (match d.path with
          | some p => if p ≠ "/" then p else ""
          | none => "") := by
        match d.path with
        | none => rfl
        | some p =>
          by_cases hslash : p = "/"
          · simp [hslash]
          · by_cases hempty : p = ""
            · subst hempty
              simp
            · simp [hempty, hslash]
      rw [hport, hpath]
theorem charListLt_irrefl : ∀ l : List Char, charListLt l l = false := by
  intro l
  induction l with
  | nil => rfl
  | cons a as ih => simp [charListLt, ih]

theorem charListLt_trans : ∀ a b c : List Char,
    charListLt a b = true → charListLt b c = true → charListLt a c = true := by
  intro a
  induction a with
  | nil =>
    intro b c hab hbc
    cases b with
    | nil => simp [charListLt] at hab
    | cons y ys =>
      cases c with
      | nil => simp [charListLt] at hbc
      | cons z zs => simp [charListLt]
  | cons x xs ih =>
    intro b c hab hbc
    cases b with
    | nil => simp [charListLt] at hab
    | cons y ys =>
      cases c with
      | nil => simp [charListLt] at hbc
      | cons z zs =>
        simp only [charListLt, Bool.or_eq_true, Bool.and_eq_true,
          decide_eq_true_eq] at hab hbc ⊢
        rcases hab with h1 | ⟨he1, h1⟩ <;> rcases hbc with h2 | ⟨he2, h2⟩
        · exact Or.inl (by omega)
        · exact Or.inl (by omega)
        · exact Or.inl (by omega)
        · exact Or.inr ⟨by omega, ih ys zs h1 h2⟩

theorem charListLt_connex : ∀ a b : List Char,
    charListLt a b = false → charListLt b a = false → a = b := by
  intro a
  induction a with
  | nil =>
    intro b hab hba
    cases b with
    | nil => rfl
    | cons y ys => simp [charListLt] at hab
  | cons x xs ih =>
    intro b hab hba
    cases b with
    | nil => simp [charListLt] at hba
    | cons y ys =>
      simp only [charListLt, Bool.or_eq_false_iff, Bool.and_eq_false_iff,
        decide_eq_false_iff_not] at hab hba
      have hxy : x.toNat = y.toNat := by omega
      have hx : x = y := Char.ext (UInt32.ext (by simpa [Char.toNat] using hxy))
      have h1 : charListLt xs ys = false := by
        rcases hab.2 with h | h
        · exact absurd hxy h
        · exact h
      have h2 : charListLt ys xs = false := by
        rcases hba.2 with h | h
        · exact absurd hxy.symm h
        · exact h
      rw [hx, ih ys h1 h2]

theorem charListLt_asymm : ∀ a b : List Char,
    charListLt a b = true → charListLt b a = false := by
  intro a b hab
  by_contra hba
  have hba' : charListLt b a = true := by
    revert hba
    cases charListLt b a <;> simp
  have := charListLt_trans a b a hab hba'
  rw [charListLt_irrefl] at this
  exact Bool.false_ne_true this

theorem strLt_connex : ∀ a b : String,
    strLt a b = false → strLt b a = false → a = b := by
  intro a b hab hba
  exact String.ext (charListLt_connex a.data b.data hab hba)


theorem strLt_trans : ∀ a b c : String,
    strLt a b = true → strLt b c = true → strLt a c = true :=
  fun a b c => charListLt_trans a.data b.data c.data

theorem strLt_asymm : ∀ a b : String,
    strLt a b = true → strLt b a = false :=
  fun a b => charListLt_asymm a.data b.data

theorem strLe_trans : ∀ a b c : String,
    strLe a b = true → strLe b c = true → strLe a c = true := by
  intro a b c hab hbc
  simp only [strLe, Bool.not_eq_true'] at hab hbc ⊢
  cases hca : strLt c a with
  | false => rfl
  | true =>
    exfalso
    cases hbc2 : strLt b c with
    | true =>
      have h := strLt_trans b c a hbc2 hca
      rw [hab] at h
      exact absurd h (by decide)
    | false =>
      have hbceq : b = c := strLt_connex b c hbc2 hbc
      rw [hbceq] at hab
      rw [hab] at hca
      exact absurd hca (by decide)

theorem strLe_total : ∀ a b : String, (strLe a b || strLe b a) = true := by
  intro a b
  simp only [strLe]
  cases h : strLt b a with
  | false => simp
  | true =>
    have hf := strLt_asymm b a h
    simp [hf]

theorem entryLE_trans : ∀ a b c : ResourceEntry,
    entryLE a b = true → entryLE b c = true → entryLE a c = true := by
  intro a b c hab hbc
  simp only [entryLE] at hab hbc ⊢
  by_cases h1 : a.projectName = b.projectName <;>
    by_cases h2 : b.projectName = c.projectName
  · rw [if_pos h1] at hab
    rw [if_pos h2] at hbc
    rw [if_pos (h1.trans h2)]
    exact strLe_trans _ _ _ hab hbc
  · rw [if_pos h1] at hab
    rw [if_neg h2] at hbc
    have hne : a.projectName ≠ c.projectName := by
      rw [h1]
      exact h2
    rw [if_neg hne, h1]
    exact hbc
  · rw [if_neg h1] at hab
    rw [if_pos h2] at hbc
    have hne : a.projectName ≠ c.projectName := fun h => h1 (h.trans h2.symm)
    rw [if_neg hne, ← h2]
    exact hab
  · rw [if_neg h1] at hab
    rw [if_neg h2] at hbc
    have hlt := strLt_trans _ _ _ hab hbc
    have hne : a.projectName ≠ c.projectName := by
      intro h
      have hf := strLt_asymm _ _ hbc
      rw [← h] at hf
      rw [hf] at hab
      exact absurd hab (by decide)
    rw [if_neg hne]
    exact hlt

theorem entryLE_total : ∀ a b : ResourceEntry, (entryLE a b || entryLE b a) = true := by
  intro a b
  simp only [entryLE]
  by_cases h : a.projectName = b.projectName
  · rw [if_pos h, if_pos h.symm]
    exact strLe_total a.title b.title
  · rw [if_neg h, if_neg (fun hh => h hh.symm)]
    cases hab : strLt a.projectName b.projectName with
    | true => simp
    | false =>
      cases hba : strLt b.projectName a.projectName with
      | true => simp
      | false => exact absurd (strLt_connex _ _ hab hba) h

theorem string_eq_empty_of_length_eq_zero (s : String) (h : s.length = 0) : s = "" := by
  apply String.ext
  exact List.length_eq_zero.mp h

theorem string_length_pos_of_ne_empty (s : String) (h : s ≠ "") : 0 < s.length := by
  rcases Nat.eq_zero_or_pos s.length with h0 | h1
  · exact absurd (string_eq_empty_of_length_eq_zero s h0) h
  · exact h1

theorem sectionEntries_length (pIndex : Nat) (project : Project)
    (environment : Environment) (sec : ResourceSection) :
    (match envSection environment sec.key with
      | none => []
      | some resources =>
          resources.enum.map (fun pr : Nat × Resource =>
            mkEntry pIndex project environment.name sec pr.1 pr.2)).length
      = ((envSection environment sec.key).getD []).length := by
  cases envSection environment sec.key <;> simp [List.enum_length]

theorem projectEntries_length (pIndex : Nat) (project : Project) :
    (projectEntries pIndex project).length = projectResourceCount project := by
  rw [projectEntries, projectResourceCount, List.length_flatMap]
  congr 1
  apply List.map_congr_left
  intro environment henv
  simp only [Function.comp]
  rw [List.length_flatMap, envResourceCount]
  congr 1
  apply List.map_congr_left
  intro sec hsec
  simpa using sectionEntries_length pIndex project environment sec

theorem flattenUnsorted_length (projects : List Project) :
    (flattenUnsorted projects).length = countResources projects := by
  rw [flattenUnsorted, countResources, List.length_flatMap]
  have h1 : List.map (List.length ∘ fun pr : Nat × Project => projectEntries pr.1 pr.2)
        projects.enum
      = List.map (fun pr : Nat × Project => projectResourceCount pr.2) projects.enum := by
    apply List.map_congr_left
    intro pr hpr
    simp only [Function.comp]
    exact projectEntries_length pr.1 pr.2
  have h2 : List.map (fun pr : Nat × Project => projectResourceCount pr.2) projects.enum
      = List.map projectResourceCount (List.map Prod.snd projects.enum) := by
    rw [List.map_map]
    rfl
  rw [h1, h2, List.enum_map_snd]

/-- C2: the output of `flattenProjects` is sorted with primary key
projectName and secondary key title (both in the string order modelling
`localeCompare`): for any two output entries in order, a different
projectName is strictly smaller on the earlier entry, and an equal
projectName puts the titles in order; and flattening the empty project
list gives the empty list. -/
theorem flattenProjects_sorted :
    (∀ projects : List Project,
      (flattenProjects projects).Pairwise (fun a b =>
        (a.projectName ≠ b.projectName → strLt a.projectName b.projectName = true) ∧
        (a.projectName = b.projectName → strLe a.title b.title = true))) ∧
    flattenProjects [] = [] := by
  constructor
  · intro projects
    have hp := List.sorted_mergeSort entryLE_trans entryLE_total (flattenUnsorted projects)
    refine hp.imp ?_
    intro a b hab
    simp only [entryLE] at hab
    constructor
    · intro hne
      rw [if_neg hne] at hab
      exact hab
    · intro heq
      rw [if_pos heq] at hab
      exact hab
  · simp [flattenProjects, flattenUnsorted]

/-- C7: a resource whose domains are null, omitted or the empty list still
yields its entry with empty urls; `urls` is in general the domains mapped
through `resolveDomainUrl` with nulls and empties discarded, in source
order; and `flattenProjects` emits exactly one entry per resource (no
entry is ever dropped). -/
theorem flattenProjects_urls_total :
    (∀ resource : Resource,
      resource.domains = none ∨ resource.domains = some [] →
        resourceUrls resource = []) ∧
    (∀ resource : Resource, resourceUrls resource = resourceUrlsSpec resource) ∧
    (∀ projects : List Project,
      (flattenProjects projects).length = countResources projects) := by
  refine ⟨?_, ?_, ?_⟩
  · intro resource h
    rcases h with h | h <;> rw [resourceUrls, h] <;> rfl
  · intro resource
    rw [resourceUrls, resourceUrlsSpec, List.filterMap_map]
    congr 1
    funext domain
    match domain with
    | none => rfl
    | some d =>
      simp only [Function.comp]
      cases hr : resolveDomainUrl (some d) with
      | none => rfl
      | some s =>
        show (if 0 < s.length then some s else none)
          = if s = "" then none else some s
        by_cases hs : s = ""
        · subst hs
          decide
        · have hpos := string_length_pos_of_ne_empty s hs
          simp [hpos, hs]
  · intro projects
    rw [flattenProjects, List.length_mergeSort, flattenUnsorted_length]

theorem mkEntry_id (pIndex : Nat) (project : Project) (environmentName : Option String)
    (sec : ResourceSection) (resIndex : Nat) (resource : Resource) :
    (mkEntry pIndex project environmentName sec resIndex resource).id
      = entryIdSpec project sec resIndex resource := by
  simp only [mkEntry, entryIdSpec]
  cases resource.composeId <;> cases resource.applicationId <;>
    cases resource.databaseId <;> cases project.projectId <;> rfl

/-- C3: every entry emitted by `flattenProjects` comes from a resource at a
definite position, and its id is the first present of composeId,
applicationId, databaseId, else the composite positional fallback; in
particular one project with one environment holding two id-less
applications yields the two distinct ids `p-applications-0` and
`p-applications-1`. -/
theorem flattenProjects_entry_ids :
    (∀ (projects : List Project) (entry : ResourceEntry),
      entry ∈ flattenProjects projects →
      ∃ pIndex project environment sec resIndex resource,
        (pIndex, project) ∈ projects.enum ∧
        environment ∈ project.environments.getD [] ∧
        sec ∈ resourceSections ∧
        (resIndex, resource) ∈ ((envSection environment sec.key).getD []).enum ∧
        entry = mkEntry pIndex project environment.name sec resIndex resource ∧
        entry.id = entryIdSpec project sec resIndex resource) ∧
    (flattenProjects [twoAppsProject]).map ResourceEntry.id
      = ["p-applications-0", "p-applications-1"] ∧
    ("p-applications-0" : String) ≠ "p-applications-1" := by
  refine ⟨?_, ?_, by decide⟩
  · intro projects entry hm
    rw [flattenProjects, List.mem_mergeSort, flattenUnsorted, List.mem_flatMap] at hm
    obtain ⟨pr, hpr, hm⟩ := hm
    rw [projectEntries, List.mem_flatMap] at hm
    obtain ⟨environment, henv, hm⟩ := hm
    rw [List.mem_flatMap] at hm
    obtain ⟨sec, hsec, hm⟩ := hm
    cases hes : envSection environment sec.key with
    | none =>
      rw [hes] at hm
      simp at hm
    | some resources =>
      rw [hes] at hm
      rw [List.mem_map] at hm
      obtain ⟨rp, hrp, hentry⟩ := hm
      subst hentry
      refine ⟨pr.1, pr.2, environment, sec, rp.1, rp.2, by simpa using hpr, henv, hsec,
        ?_, rfl, mkEntry_id pr.1 pr.2 environment.name sec rp.1 rp.2⟩
      rw [hes]
      simpa using hrp
  · have hsortEq : flattenProjects [twoAppsProject] = flattenUnsorted [twoAppsProject] :=
      List.mergeSort_of_sorted (by decide)
    rw [hsortEq]
    decide

/-- C10: entry ids are not unique across the output of `flattenProjects`:
for a project without projectId whose two environments each hold, at the
same position of the same category, a resource without explicit ids, two
distinct entries (the environment names differ) carry the same id. -/
theorem flattenProjects_duplicate_ids :
    (flattenProjects [dupIdProject]).map (fun e => (e.id, e.environmentName))
      = [("p-applications-0", some "dev"), ("p-applications-0", some "prod")] ∧
    ∃ e1 e2, e1 ∈ flattenProjects [dupIdProject] ∧ e2 ∈ flattenProjects [dupIdProject] ∧
      e1 ≠ e2 ∧ e1.id = e2.id := by
  have hsortEq : flattenProjects [dupIdProject] = flattenUnsorted [dupIdProject] :=
    List.mergeSort_of_sorted (by decide)
  constructor
  · rw [hsortEq]
    decide
  · refine ⟨ResourceEntry.mk "p-applications-0" "p" "Untitled resource" "p"
        (some "dev") "Applications" [],
      ResourceEntry.mk "p-applications-0" "p" "Untitled resource" "p"
        (some "prod") "Applications" [], ?_, ?_, by decide, by decide⟩
    · rw [hsortEq]
      decide
    · rw [hsortEq]
      decide

/-- C8: pin toggling round-trips: for an id not in the pin set, toggling it
twice restores the set exactly, hence the pinned/unpinned partition of any
entry list is unchanged. -/
theorem togglePin_roundtrip (pins : List String) (entryId : String)
    (h : entryId ∉ pins) :
    togglePin entryId (togglePin entryId pins) = pins ∧
    ∀ entries : List ResourceEntry,
      entries.filter (fun e => (togglePin entryId (togglePin entryId pins)).contains e.id)
        = entries.filter (fun e => pins.contains e.id) ∧
      entries.filter (fun e => !(togglePin entryId (togglePin entryId pins)).contains e.id)
        = entries.filter (fun e => !pins.contains e.id) := by
  have hc : pins.contains entryId = false := by
    cases hcc : pins.contains entryId with
    | false => rfl
    | true => exact absurd (List.elem_iff.mp hcc) h
  have h1 : togglePin entryId pins = pins ++ [entryId] := by
    rw [togglePin, hc]
    simp
  have hfilter : pins.filter (fun key => key != entryId) = pins :=
    List.filter_eq_self.mpr (fun a ha => by
      rw [bne_iff_ne]
      intro heq
      exact h (heq ▸ ha))
  have h2 : togglePin entryId (pins ++ [entryId]) = pins := by
    have hctrue : (pins ++ [entryId]).contains entryId = true :=
      List.elem_iff.mpr (by simp)
    rw [togglePin, hctrue, if_pos rfl, List.filter_append, hfilter]
    simp
  have key : togglePin entryId (togglePin entryId pins) = pins := by
    rw [h1]
    exact h2
  exact ⟨key, fun entries => by rw [key]; exact ⟨rfl, rfl⟩⟩

theorem togglePin_roundtrip_witness :
    togglePin "b" (togglePin "b" ["a"]) = ["a"] ∧
    ∀ entries : List ResourceEntry,
      entries.filter (fun e => (togglePin "b" (togglePin "b" ["a"])).contains e.id)
        = entries.filter (fun e => (["a"] : List String).contains e.id) ∧
      entries.filter (fun e => !(togglePin "b" (togglePin "b" ["a"])).contains e.id)
        = entries.filter (fun e => !(["a"] : List String).contains e.id) :=
  togglePin_roundtrip ["a"] "b" (by decide)

/-- C9: pin-set initialization is a total function of the stored content
and never propagates a parse failure: a missing or empty stored value, a
value on which the parser throws, or a parsed value that is not an array
all yield the empty set, and an array keeps exactly its string elements. -/
theorem initPins_recovers :
    (∀ parse : String → Option Json, initPins none parse = []) ∧
    (∀ (s : String) (parse : String → Option Json),
      parse s = none → initPins (some s) parse = []) ∧
    (∀ (s : String) (parse : String → Option Json) (j : Json),
      parse s = some j → (∀ elems, j ≠ Json.arr elems) →
      initPins (some s) parse = []) ∧
    (∀ (s : String) (parse : String → Option Json) (elems : List Json),
      s ≠ "" → parse s = some (Json.arr elems) →
      initPins (some s) parse = elems.filterMap (fun item =>
        match item with
        | Json.str v => some v
        | _ => none)) := by
  refine ⟨fun parse => rfl, ?_, ?_, ?_⟩
  · intro s parse hp
    by_cases hs : s = ""
    · simp [initPins, hs]
    · simp [initPins, hs, hp]
  · intro s parse j hp hnotarr
    by_cases hs : s = ""
    · simp [initPins, hs]
    · cases j with
      | arr elems => exact absurd rfl (hnotarr elems)
      | null => simp [initPins, hs, hp]
      | bool b => simp [initPins, hs, hp]
      | num n => simp [initPins, hs, hp]
      | str v => simp [initPins, hs, hp]
      | obj fields => simp [initPins, hs, hp]
  · intro s parse elems hs hp
    simp [initPins, hs, hp]

theorem sanitizeBaseUrl_none_iff (s : String) :
    sanitizeBaseUrl s = none ↔ jsTrim s = "" := by
  rw [sanitizeBaseUrl]
  by_cases h : jsTrim s = "" <;> simp [h]

/-- C5: base-URL normalization trims whitespace, yields null exactly on
empty or whitespace-only input (which makes the handler answer with the
configuration error), strips one trailing slash and appends `/api` iff no
`/api` segment is present; in particular `https://host/` normalizes to
`https://host/api` and `https://host/api/` to `https://host/api`. -/
theorem sanitizeBaseUrl_correct :
    (∀ s : String, sanitizeBaseUrl s = none ↔ jsTrim s = "") ∧
    (∀ s : String, jsTrim s ≠ "" →
      sanitizeBaseUrl s = some (
        if hasApiSegment (stripOneTrailingSlash (jsTrim s))
        then stripOneTrailingSlash (jsTrim s)
        else stripOneTrailingSlash (jsTrim s) ++ "/api")) ∧
    sanitizeBaseUrl "https://host/" = some "https://host/api" ∧
    sanitizeBaseUrl "https://host/api/" = some "https://host/api" ∧
    (∀ (baseUrl : String) (r1 r2 : UpstreamResponse) (now : String),
      jsTrim baseUrl = "" →
      handleConfig baseUrl r1 r2 now
        = ApiResult.err 500 "Missing DOKPLOY_BASE_URL environment variable.") := by
  refine ⟨sanitizeBaseUrl_none_iff, ?_, by decide, by decide, ?_⟩
  · intro s hs
    rw [sanitizeBaseUrl]
    simp [hs]
  · intro baseUrl r1 r2 now h
    rw [handleConfig, (sanitizeBaseUrl_none_iff baseUrl).mpr h]

/-- C4: if either outbound call of the aggregation endpoint reports a
non-success status, the whole operation fails with a 500 error naming the
failed call with its status code and text, and never returns a payload; in
particular an OpenAPI failure with a successful projects call yields the
OpenAPI-specific error. -/
theorem handleConfig_upstream_failure :
    (∀ (baseUrl : String) (r1 r2 : UpstreamResponse) (now : String),
      jsTrim baseUrl ≠ "" → r1.ok = false →
      handleConfig baseUrl r1 r2 now = ApiResult.err 500 (openApiErrorMessage r1)) ∧
    (∀ (baseUrl : String) (r1 r2 : UpstreamResponse) (now : String),
      jsTrim baseUrl ≠ "" → r1.ok = true → r2.ok = false →
      handleConfig baseUrl r1 r2 now = ApiResult.err 500 (projectsErrorMessage r2)) ∧
    (∀ (baseUrl : String) (r1 r2 : UpstreamResponse) (now : String) (payload : Json),
      r1.ok = false ∨ r2.ok = false →
      handleConfig baseUrl r1 r2 now ≠ ApiResult.ok payload) ∧
    handleConfig "https://host"
        (UpstreamResponse.mk false 503 "Service Unavailable" Json.null)
        (UpstreamResponse.mk true 200 "OK" (Json.arr [])) "2024-01-01T00:00:00.000Z"
      = ApiResult.err 500
          "Unable to load Dokploy OpenAPI document (503 Service Unavailable)" := by
  refine ⟨?_, ?_, ?_, rfl⟩
  · intro baseUrl r1 r2 now h hok
    cases hsan : sanitizeBaseUrl baseUrl with
    | none => exact absurd ((sanitizeBaseUrl_none_iff baseUrl).mp hsan) h
    | some v =>
      rw [handleConfig, hsan]
      simp [hok]
  · intro baseUrl r1 r2 now h hok1 hok2
    cases hsan : sanitizeBaseUrl baseUrl with
    | none => exact absurd ((sanitizeBaseUrl_none_iff baseUrl).mp hsan) h
    | some v =>
      rw [handleConfig, hsan]
      simp [hok1, hok2]
  · intro baseUrl r1 r2 now payload h
    cases hsan : sanitizeBaseUrl baseUrl with
    | none =>
      rw [handleConfig, hsan]
      intro hcontra
      exact ApiResult.noConfusion hcontra
    | some v =>
      rcases h with h | h
      · rw [handleConfig, hsan]
        simp [h]
      · cases hr1 : r1.ok with
        | false =>
          rw [handleConfig, hsan]
          simp [hr1]
        | true =>
          rw [handleConfig, hsan]
          simp [hr1, h]

theorem getField_map_replace (fields : List (String × Json)) (k : String)
    (f : String × Json → String × Json)
    (hk : ∀ v, f (k, v) = (k, v)) (hfst : ∀ kv, (f kv).1 = kv.1) :
    getField (fields.map f) k = getField fields k := by
  induction fields with
  | nil => rfl
  | cons kv rest ih =>
    obtain ⟨k1, v1⟩ := kv
    by_cases h : k1 = k
    · subst h
      rw [List.map_cons, hk v1]
      simp [getField]
    · have h2 : (f (k1, v1)).1 = k1 := hfst (k1, v1)
      rcases hf : f (k1, v1) with ⟨k2, v2⟩
      rw [hf] at h2
      have h3 : k2 = k1 := h2
      rw [List.map_cons, hf, getField, getField,
        if_neg (fun heq : k2 = k => h (by rw [← h3]; exact heq)),
        if_neg h]
      exact ih

/-- C6 (amended): the passthrough schemas (domain, resource, environment,
project) retain every input field in the parse output, and the outer
OpenAPI document keeps every unrecognized field; the ConfigResponse
envelope instead keeps only its declared keys; missing or mistyped
required fields (a domain host, the meta fetchedAt) are validation
errors. -/
theorem schema_passthrough_policy :
    (∀ j out, parseDomain j = some out → out = j) ∧
    (∀ j out, parseResource j = some out → out = j) ∧
    (∀ j out, parseEnvironment j = some out → out = j) ∧
    (∀ j out, parseProject j = some out → out = j) ∧
    (∀ (fields : List (String × Json)) (out : Json) (k : String) (v : Json),
      parseOpenApiInfo (Json.obj fields) = some out →
      k ≠ "info" → k ≠ "servers" → getField fields k = some v →
      ∃ outFields, out = Json.obj outFields ∧ getField outFields k = some v) ∧
    (∀ (fields : List (String × Json)) (out : Json),
      parseConfigResponse (Json.obj fields) = some out →
      ∃ projectsOut metaOut,
        out = Json.obj [("projects", projectsOut), ("meta", metaOut)]) ∧
    (∀ fields : List (String × Json),
      getField fields "host" = none → parseDomain (Json.obj fields) = none) ∧
    (∀ (fields : List (String × Json)) (n : Int),
      getField fields "host" = some (Json.num n) →
      parseDomain (Json.obj fields) = none) ∧
    (∀ fields : List (String × Json),
      getField fields "fetchedAt" = none → parseMeta (Json.obj fields) = none) := by
  refine ⟨?_, ?_, ?_, ?_, ?_, ?_, ?_, ?_, ?_⟩
  · intro j out hp
    by_cases hv : validDomain j = true
    · rw [parseDomain, if_pos hv] at hp
      exact (Option.some.inj hp).symm
    · rw [parseDomain, if_neg hv] at hp
      cases hp
  · intro j out hp
    by_cases hv : validResource j = true
    · rw [parseResource, if_pos hv] at hp
      exact (Option.some.inj hp).symm
    · rw [parseResource, if_neg hv] at hp
      cases hp
  · intro j out hp
    by_cases hv : validEnvironment j = true
    · rw [parseEnvironment, if_pos hv] at hp
      exact (Option.some.inj hp).symm
    · rw [parseEnvironment, if_neg hv] at hp
      cases hp
  · intro j out hp
    by_cases hv : validProject j = true
    · rw [parseProject, if_pos hv] at hp
      exact (Option.some.inj hp).symm
    · rw [parseProject, if_neg hv] at hp
      cases hp
  · intro fields out k v hp hki hks hgf
    simp only [parseOpenApiInfo] at hp
    obtain ⟨infoOut, hA, h2⟩ := Option.bind_eq_some.mp hp
    obtain ⟨serversOut, hB, h3⟩ := Option.map_eq_some'.mp h2
    refine ⟨_, h3.symm, ?_⟩
    rw [getField_map_replace fields k _ ?_ ?_]
    · exact hgf
    · intro vv
      simp [hki, hks]
    · intro kv
      by_cases hi : kv.1 = "info" <;> by_cases hs2 : kv.1 = "servers" <;>
        simp [hi, hs2]
  · intro fields out hp
    simp only [parseConfigResponse] at hp
    obtain ⟨projectsOut, hA, h2⟩ := Option.bind_eq_some.mp hp
    obtain ⟨metaOut, hB, h3⟩ := Option.map_eq_some'.mp h2
    exact ⟨projectsOut, metaOut, h3.symm⟩
  · intro fields h
    have hv : validDomain (Json.obj fields) = false := by
      simp [validDomain, h]
    simp [parseDomain, hv]
  · intro fields n h
    have hv : validDomain (Json.obj fields) = false := by
      simp [validDomain, h]
    simp [parseDomain, hv]
  · intro fields h
    simp only [parseMeta]
    rw [h]
    split <;> rfl

/-- C6 counterexample: the ConfigResponse envelope does not retain an
unrecognized top-level field: validation succeeds on an input carrying an
`extra` field, but the parsed output no longer holds it. -/
theorem configResponse_drops_unknown_field :
    parseConfigResponse (Json.obj configExtraFields)
      = some (Json.obj configStrippedFields) ∧
    getField configExtraFields "extra" = some (Json.str "kept") ∧
    getField configStrippedFields "extra" = none :=
  ⟨rfl, rfl, rfl⟩
